import Mathlib

/- Verification of the discobot process-supervisor core (src/src-tauri/src/lib.rs).
   The Rust code is shallowly embedded: file contents are byte lists, Rust strings
   are lists of characters, the child-process handle is an opaque numeric id, and
   the asynchronous logging task is modelled as a pure function over the finite
   list of events delivered on the child's channel. -/

namespace Discobot

/- Credential generator: `generate_secret` in lib.rs.  `CHARSET` is the literal
   byte string from the source; the rng draw `rng.random_range(0..CHARSET.len())`
   is modelled by an arbitrary stream of in-range indices. -/

def CHARSET : List Char :=
  "abcdefghijklmnopqrstuvwxyzABCDEFGHIJKLMNOPQRSTUVWXYZ0123456789".toList

def generate_secret (rng : Nat → Fin CHARSET.length) : List Char :=
  (List.range 32).map (fun i => CHARSET.get (rng i))

/- Log compaction: `truncate_log_file` in lib.rs.  The filesystem view of the
   log is `Option (List Nat)` (`none` = file does not exist, bytes as naturals).
   I/O reads and writes that the pure model cannot fail at are `Except.ok`;
   the `String` error type mirrors the Rust `Result<(), String>`. -/

def MAX_SIZE : Nat := 1048576
def KEEP_SIZE : Nat := 10240

def truncationMessage (ts : String) (origSize keptLen : Nat) : String :=
  "=== Log truncated at " ++ ts ++ " (was " ++ toString origSize ++
    " bytes, keeping last " ++ toString keptLen ++ " bytes) ===\n"

def truncationBanner (ts : String) (origSize keptLen : Nat) : List Nat :=
  (truncationMessage ts origSize keptLen).toList.map Char.toNat

def truncate_log_file (file : Option (List Nat)) (ts : String) :
    Except String (Option (List Nat)) :=
  match file with
  | none => Except.ok none
  | some content =>
    let file_size := content.length
    if file_size ≤ MAX_SIZE then
      Except.ok (some content)
    else
      let seek_pos := if file_size > KEEP_SIZE then file_size - KEEP_SIZE else 0
      let last_bytes := content.drop seek_pos
      Except.ok (some (truncationBanner ts file_size last_bytes.length ++ last_bytes))

/- Supervisor state: `ServerState` in lib.rs, managed behind a mutex.  The
   child handle `CommandChild` is opaque to the supervisor; it is modelled as a
   numeric id.  `shutdown` is the quit-menu handler body: `state.process.take()`
   followed by `child.kill()`; the kill side effect is modelled as the list of
   ids killed by the call. -/

structure ServerState where
  port : Nat
  secret : String
  process : Option Nat
deriving DecidableEq, Repr

def get_server_port (s : ServerState) : Nat := s.port

def get_server_secret (s : ServerState) : String := s.secret

def shutdown (s : ServerState) : ServerState × List Nat :=
  match s.process with
  | some child => ({ s with process := none }, [child])
  | none => (s, [])

/- Application lifecycle: `run` builds the managed state with `process = None`,
   then `setup` calls `start_server` once and stores the child only on `Ok`;
   the only other mutation of `process` in the program is the quit handler. -/

def initState (port : Nat) (secret : String) : ServerState :=
  { port := port, secret := secret, process := none }

def setupSpawn (s : ServerState) (r : Except String Nat) : ServerState :=
  match r with
  | Except.ok child => { s with process := some child }
  | Except.error _ => s

def shutdownStep (s : ServerState) : ServerState := (shutdown s).1

def stateAfter (port : Nat) (secret : String) (spawn : Except String Nat) (n : Nat) :
    ServerState :=
  shutdownStep^[n] (setupSpawn (initState port secret) spawn)

def spawnOpt (spawn : Except String Nat) : Option Nat :=
  match spawn with
  | Except.ok child => some child
  | Except.error _ => none

/- The sequence of values taken by the `process` field over one application
   run: initial state, state after the one `start_server` attempt, then the
   state after each successive quit-handler invocation. -/
def procTrace (port : Nat) (secret : String) (spawn : Except String Nat) (n : Nat) :
    List (Option Nat) :=
  (initState port secret).process ::
    (List.range (n + 1)).map (fun k => (stateAfter port secret spawn k).process)

/- Number of adjacent transitions none-to-some (handle set) and some-to-none
   (handle cleared) in a trace of `process` values. -/
def rises : List (Option Nat) → Nat
  | a :: b :: rest => (if a = none ∧ b ≠ none then 1 else 0) + rises (b :: rest)
  | _ => 0

def falls : List (Option Nat) → Nat
  | a :: b :: rest => (if a ≠ none ∧ b = none then 1 else 0) + falls (b :: rest)
  | _ => 0

/- Child events and the event-consumption loop of `start_server`.  A Rust
   string is modelled as `List Char`; the stdout/stderr payloads carry the text
   produced by the standard library's lossy UTF-8 decode of the raw bytes
   (`String::from_utf8_lossy`), which is the value the loop formats.  The
   `other` constructor models the residual `_ => continue` arm for any further
   channel event variant. -/

inductive CommandEvent where
  | stdout (line : List Char)
  | stderr (line : List Char)
  | error (msg : List Char)
  | terminated (code : Option Int) (signal : Option Int)
  | other
deriving DecidableEq, Repr

/- Rust `str::trim_end_matches(c)`: remove every trailing occurrence of `c`. -/
def trimEndMatches (c : Char) (s : List Char) : List Char :=
  (s.reverse.dropWhile (fun x => x == c)).reverse

/- Rust `Debug` formatting of an `Option<i32>` field of `TerminatedPayload`. -/
def fmtOptInt (o : Option Int) : List Char :=
  match o with
  | none => "None".toList
  | some n => "Some(".toList ++ (toString n).toList ++ ")".toList

/- The `match event` arms of the consumption loop: the formatted log line for
   the four handled variants, `none` for the residual `_ => continue` arm. -/
def fmtEvent : CommandEvent → Option (List Char)
  | CommandEvent.stdout line =>
    some ("[stdout] ".toList ++ trimEndMatches '\r' (trimEndMatches '\n' line) ++ ['\n'])
  | CommandEvent.stderr line =>
    some ("[stderr] ".toList ++ trimEndMatches '\r' (trimEndMatches '\n' line) ++ ['\n'])
  | CommandEvent.error msg =>
    some ("[error] ".toList ++ msg ++ ['\n'])
  | CommandEvent.terminated code signal =>
    some ("[terminated] code: ".toList ++ fmtOptInt code ++ ", signal: ".toList ++
      fmtOptInt signal ++ ['\n'])
  | CommandEvent.other => none

/- The `while let Some(event) = rx.recv().await` loop, restricted to the lines
   it appends to the log: one recursion step per delivered event. -/
def eventLoopLines : List CommandEvent → List (List Char)
  | [] => []
  | e :: rest =>
    match fmtEvent e with
    | some line => line :: eventLoopLines rest
    | none => eventLoopLines rest

/- The session separator written by the logging task before it consumes any
   event, with the current timestamp. -/
def separator (ts : List Char) : List Char :=
  "\n\n=== Server started at ".toList ++ ts ++ " ===\n".toList

/- Diagnostic messages printed with `eprintln` by the logging task (the
   interpolated path/error text is irrelevant to the claims). -/
def diagOpenFail : List Char := "Failed to open log file".toList
def diagWriteFail : List Char := "Failed to write to log file".toList

/- Observable outcome of one run of the logging task: how many events it pulled
   from the channel, which lines reached the file, and which diagnostics it
   printed.  The task's Rust type is `()`: it has no error channel, so nothing
   can propagate to a caller. -/
structure TaskResult where
  consumed : Nat
  written : List (List Char)
  diags : List (List Char)
deriving DecidableEq, Repr

/- The event loop of the logging task under a write-failure oracle: `writeOk k`
   tells whether the k-th `write_all` call succeeds.  A failed write produces a
   diagnostic and the loop continues with the next event (`flush` errors are
   discarded outright by the source: `let _ = log_file.flush()`). -/
def taskGo (writeOk : Nat → Bool) (k : Nat) : List CommandEvent → TaskResult
  | [] => { consumed := 0, written := [], diags := [] }
  | e :: rest =>
    match fmtEvent e with
    | some line =>
      let r := taskGo writeOk (k + 1) rest
      { consumed := r.consumed + 1,
        written := (if writeOk k then [line] else []) ++ r.written,
        diags := (if writeOk k then [] else [diagWriteFail]) ++ r.diags }
    | none =>
      let r := taskGo writeOk k rest
      { consumed := r.consumed + 1, written := r.written, diags := r.diags }

/- The whole logging task: on open failure it prints a diagnostic and returns
   before consuming anything; otherwise it writes the separator (write 0) and
   runs the loop (writes 1, 2, ...). -/
def loggingTask (canOpen : Bool) (writeOk : Nat → Bool) (ts : List Char)
    (events : List CommandEvent) : TaskResult :=
  if canOpen then
    let r := taskGo writeOk 1 events
    { consumed := r.consumed,
      written := (if writeOk 0 then [separator ts] else []) ++ r.written,
      diags := (if writeOk 0 then [] else [diagWriteFail]) ++ r.diags }
  else
    { consumed := 0, written := [], diags := [diagOpenFail] }

/- File-handle operations the logging task issues, in program order.
   `awaitRecv` marks each suspension on `rx.recv().await`. -/
inductive LogOp where
  | openLog
  | write (s : List Char)
  | flush
  | awaitRecv
deriving DecidableEq, Repr

def loopOps : List CommandEvent → List LogOp
  | [] => [LogOp.awaitRecv]
  | e :: rest =>
    LogOp.awaitRecv ::
      ((match fmtEvent e with
        | some line => [LogOp.write line, LogOp.flush]
        | none => []) ++ loopOps rest)

def taskOps (ts : List Char) (events : List CommandEvent) : List LogOp :=
  LogOp.openLog :: LogOp.write (separator ts) :: loopOps events

/-- C1: every string returned by `generate_secret` has length exactly 32, every
one of its characters belongs to `CHARSET`, and `CHARSET` is the 62-character
alphanumeric alphabet (each character is a latin letter or a digit). -/
theorem generate_secret_length_and_alphabet (rng : Nat → Fin CHARSET.length) :
    (generate_secret rng).length = 32 ∧
    (∀ c ∈ generate_secret rng, c ∈ CHARSET) ∧
    CHARSET.length = 62 ∧
    (∀ c ∈ CHARSET, c.isLower ∨ c.isUpper ∨ c.isDigit) := by
  refine ⟨?_, ?_, by decide, by decide⟩
  · simp [generate_secret]
  · intro c hc
    simp only [generate_secret, List.mem_map] at hc
    obtain ⟨i, _, rfl⟩ := hc
    exact List.get_mem CHARSET (rng i).1 (rng i).2

/-- C2: for every log file whose size exceeds `MAX_SIZE`, compaction rewrites the
file as banner ++ kept bytes, where the kept bytes are exactly the last
`min size KEEP_SIZE` bytes of the original content, the new size is the banner
length plus `min size KEEP_SIZE`, and the banner records the timestamp, the
original size and the retained size. -/
theorem truncate_log_file_oversized (content : List Nat) (ts : String)
    (h : content.length > MAX_SIZE) :
    truncate_log_file (some content) ts =
      Except.ok (some (truncationBanner ts content.length (min content.length KEEP_SIZE) ++
        content.drop (content.length - min content.length KEEP_SIZE))) ∧
    (truncationBanner ts content.length (min content.length KEEP_SIZE) ++
        content.drop (content.length - min content.length KEEP_SIZE)).length =
      (truncationBanner ts content.length (min content.length KEEP_SIZE)).length +
        min content.length KEEP_SIZE := by
  have hk : KEEP_SIZE < content.length := lt_trans (by decide) h
  have hmin : min content.length KEEP_SIZE = KEEP_SIZE := min_eq_right (le_of_lt hk)
  constructor
  · simp only [truncate_log_file, hmin]
    rw [if_neg (by omega), if_pos hk]
    have hlen : (content.drop (content.length - KEEP_SIZE)).length = KEEP_SIZE := by
      rw [List.length_drop]; omega
    rw [hlen]
  · simp only [List.length_append, List.length_drop, hmin]
    omega

/-- Witness for C2 at a concrete oversized file. -/
theorem truncate_log_file_oversized_witness :
    (List.replicate (MAX_SIZE + 1) (0 : Nat)).length > MAX_SIZE ∧
    truncate_log_file (some (List.replicate (MAX_SIZE + 1) 0)) "t" =
      Except.ok (some (truncationBanner "t" (MAX_SIZE + 1) KEEP_SIZE ++
        List.replicate KEEP_SIZE (0 : Nat))) := by
  have h : (List.replicate (MAX_SIZE + 1) (0 : Nat)).length > MAX_SIZE := by
    simp only [List.length_replicate]; omega
  refine ⟨h, ?_⟩
  have h2 := (truncate_log_file_oversized (List.replicate (MAX_SIZE + 1) 0) "t" h).1
  rw [h2]
  simp only [List.length_replicate]
  rw [List.drop_replicate]
  norm_num [MAX_SIZE, KEEP_SIZE]

/-- C3: compaction leaves the file unchanged and returns success whenever the
file does not exist or its size is at most `MAX_SIZE`. -/
theorem truncate_log_file_noop (ts : String) (content : List Nat)
    (h : content.length ≤ MAX_SIZE) :
    truncate_log_file none ts = Except.ok none ∧
    truncate_log_file (some content) ts = Except.ok (some content) := by
  constructor
  · rfl
  · simp [truncate_log_file, h]

/-- Witness for C3 at a concrete small file. -/
theorem truncate_log_file_noop_witness :
    ([0, 1, 2] : List Nat).length ≤ MAX_SIZE ∧
    (truncate_log_file none "t" = Except.ok none ∧
      truncate_log_file (some [0, 1, 2]) "t" = Except.ok (some [0, 1, 2])) :=
  ⟨by decide, truncate_log_file_noop "t" [0, 1, 2] (by decide)⟩

lemma shutdownStep_eq (s : ServerState) :
    shutdownStep s = { port := s.port, secret := s.secret, process := none } := by
  cases s with
  | mk port secret process =>
    cases process <;> simp [shutdownStep, shutdown]

lemma stateAfter_succ (port : Nat) (secret : String) (spawn : Except String Nat) (n : Nat) :
    stateAfter port secret spawn (n + 1) = shutdownStep (stateAfter port secret spawn n) :=
  Function.iterate_succ_apply' shutdownStep n _

lemma stateAfter_fields (port : Nat) (secret : String) (spawn : Except String Nat) (n : Nat) :
    (stateAfter port secret spawn n).port = port ∧
    (stateAfter port secret spawn n).secret = secret := by
  induction n with
  | zero =>
    cases spawn <;> simp [stateAfter, setupSpawn, initState]
  | succ m ih =>
    rw [stateAfter_succ, shutdownStep_eq]
    exact ih

lemma stateAfter_pos (port : Nat) (secret : String) (spawn : Except String Nat) (n : Nat) :
    stateAfter port secret spawn (n + 1) =
      { port := port, secret := secret, process := none } := by
  rw [stateAfter_succ, shutdownStep_eq,
    (stateAfter_fields port secret spawn n).1, (stateAfter_fields port secret spawn n).2]

lemma procTrace_eq (port : Nat) (secret : String) (spawn : Except String Nat) (n : Nat) :
    procTrace port secret spawn n = none :: spawnOpt spawn :: List.replicate n none := by
  unfold procTrace
  rw [List.range_succ_eq_map, List.map_cons, List.map_map]
  have h1 : (stateAfter port secret spawn 0).process = spawnOpt spawn := by
    cases spawn <;> simp [stateAfter, setupSpawn, initState, spawnOpt]
  have h2 : List.map ((fun k => (stateAfter port secret spawn k).process) ∘ Nat.succ)
      (List.range n) = List.replicate n none := by
    refine List.eq_replicate_iff.mpr ⟨by simp, ?_⟩
    intro b hb
    simp only [List.mem_map, List.mem_range, Function.comp] at hb
    obtain ⟨k, _, hk⟩ := hb
    rw [← hk]
    show (stateAfter port secret spawn (k + 1)).process = none
    rw [stateAfter_pos]
  rw [h2]
  show (initState port secret).process ::
    (stateAfter port secret spawn 0).process :: List.replicate n none = _
  rw [h1]
  rfl

lemma rises_cons_replicate (x : Option Nat) (n : Nat) :
    rises (x :: List.replicate n none) = 0 := by
  induction n generalizing x with
  | zero => simp [rises]
  | succ m ih =>
    rw [List.replicate_succ]
    show (if x = none ∧ none ≠ none then 1 else 0) + rises (none :: List.replicate m none) = 0
    rw [ih none]
    simp

lemma falls_none_replicate (n : Nat) :
    falls ((none : Option Nat) :: List.replicate n none) = 0 := by
  induction n with
  | zero => simp [falls]
  | succ m ih =>
    rw [List.replicate_succ]
    show (if (none : Option Nat) ≠ none ∧ none = none then 1 else 0) +
      falls ((none : Option Nat) :: List.replicate m none) = 0
    rw [ih]
    simp

lemma falls_cons_replicate (x : Option Nat) (n : Nat) :
    falls (x :: List.replicate n none) ≤ 1 := by
  cases n with
  | zero => simp [falls]
  | succ m =>
    rw [List.replicate_succ]
    show (if x ≠ none ∧ none = none then 1 else 0) +
      falls ((none : Option Nat) :: List.replicate m none) ≤ 1
    rw [falls_none_replicate]
    split <;> simp

/-- C4: the quit handler's shutdown is idempotent: a second call leaves the
state unchanged and kills nothing; the first call clears the child handle and
kills exactly the handle it found; shutdown on a state without a child is a
no-op. -/
theorem shutdown_idempotent (s : ServerState) :
    (shutdown (shutdown s).1).1 = (shutdown s).1 ∧
    (shutdown (shutdown s).1).2 = [] ∧
    (shutdown s).1.process = none ∧
    (shutdown s).2 = s.process.toList ∧
    shutdown { s with process := none } = ({ s with process := none }, []) := by
  cases s with
  | mk port secret process =>
    cases process <;> simp [shutdown]

/-- C6: after a spawn failure the child handle stays `none` for the rest of the
run (through any number of later shutdown calls), and the query interface still
returns the port and secret negotiated before the spawn attempt. -/
theorem spawn_failure_preserves_queries (port : Nat) (secret : String) (e : String)
    (n : Nat) :
    (stateAfter port secret (Except.error e) n).process = none ∧
    get_server_port (stateAfter port secret (Except.error e) n) = port ∧
    get_server_secret (stateAfter port secret (Except.error e) n) = secret := by
  refine ⟨?_, (stateAfter_fields port secret _ n).1, (stateAfter_fields port secret _ n).2⟩
  cases n with
  | zero => simp [stateAfter, setupSpawn, initState]
  | succ m => rw [stateAfter_pos]

/-- C8: over one application run the `process` field follows the trace
`none, spawn result, none, none, ...`: it is `none` before spawn, set at most
once, cleared at most once, permanently `none` after a spawn failure, and never
set again once it is `none` at any point after the spawn attempt. -/
theorem child_handle_at_most_once (port : Nat) (secret : String)
    (spawn : Except String Nat) (n : Nat) :
    procTrace port secret spawn n = none :: spawnOpt spawn :: List.replicate n none ∧
    (procTrace port secret spawn n).head? = some none ∧
    rises (procTrace port secret spawn n) ≤ 1 ∧
    falls (procTrace port secret spawn n) ≤ 1 ∧
    (∀ e, spawn = Except.error e → ∀ o ∈ procTrace port secret spawn n, o = none) ∧
    (∀ i j oj, 1 ≤ i → i ≤ j →
      (procTrace port secret spawn n).get? i = some none →
      (procTrace port secret spawn n).get? j = some oj → oj = none) := by
  rw [procTrace_eq]
  refine ⟨rfl, rfl, ?_, ?_, ?_, ?_⟩
  · show (if (none : Option Nat) = none ∧ spawnOpt spawn ≠ none then 1 else 0) +
      rises (spawnOpt spawn :: List.replicate n none) ≤ 1
    rw [rises_cons_replicate]
    split <;> simp
  · show (if (none : Option Nat) ≠ none ∧ spawnOpt spawn = none then 1 else 0) +
      falls (spawnOpt spawn :: List.replicate n none) ≤ 1
    simp only [ne_eq, not_true_eq_false, false_and, if_false, zero_add]
    exact falls_cons_replicate _ n
  · rintro e rfl o ho
    simp only [spawnOpt, List.mem_cons, List.mem_replicate] at ho
    rcases ho with rfl | h | ⟨_, rfl⟩ <;> try rfl
    exact h
  · intro i j oj hi hij hgi hgj
    rcases j with _ | _ | k
    · omega
    · have hi1 : i = 1 := by omega
      subst hi1
      rw [hgi] at hgj
      exact (Option.some_inj.mp hgj).symm
    · simp only [List.get?_cons_succ] at hgj
      rcases h : (List.replicate n (none : Option Nat)).get? k with _ | v
      · rw [h] at hgj; exact absurd hgj (by simp)
      · rw [h] at hgj
        have hv := List.get?_mem h
        rw [List.eq_of_mem_replicate hv] at hgj
        exact (Option.some_inj.mp hgj).symm

/-- Witness for C8 at a concrete failed-spawn run. -/
theorem child_handle_at_most_once_witness :
    procTrace 1 "s" (Except.error "boom") 1 = [none, none, none] ∧
    (∀ o ∈ procTrace 1 "s" (Except.error "boom") 1, o = none) ∧
    (none : Option Nat) = none := by
  refine ⟨?_, (child_handle_at_most_once 1 "s" (Except.error "boom") 1).2.2.2.2.1 "boom" rfl,
    (child_handle_at_most_once 1 "s" (Except.error "boom") 1).2.2.2.2.2 1 2 none
      (by decide) (by decide) ?_ ?_⟩
  · have h := (child_handle_at_most_once 1 "s" (Except.error "boom") 1).1
    simpa [spawnOpt] using h
  · have h := (child_handle_at_most_once 1 "s" (Except.error "boom") 1).1
    rw [h]; rfl
  · have h := (child_handle_at_most_once 1 "s" (Except.error "boom") 1).1
    rw [h]; rfl

lemma head_dropWhile_false (p : Char → Bool) (l : List Char) (x : Char)
    (h : (l.dropWhile p).head? = some x) : p x = false := by
  induction l with
  | nil => simp [List.dropWhile] at h
  | cons a t ih =>
    rw [List.dropWhile_cons] at h
    by_cases hp : p a
    · rw [if_pos hp] at h
      exact ih h
    · rw [if_neg hp] at h
      simp only [List.head?_cons, Option.some_inj] at h
      subst h
      exact Bool.not_eq_true _ ▸ eq_false_of_ne_true hp

lemma trimEndMatches_decomp (c : Char) (s : List Char) :
    ∃ k, s = trimEndMatches c s ++ List.replicate k c := by
  refine ⟨(s.reverse.takeWhile (fun x => x == c)).length, ?_⟩
  have hsplit : s.reverse.takeWhile (fun x => x == c) ++
      s.reverse.dropWhile (fun x => x == c) = s.reverse :=
    List.takeWhile_append_dropWhile _ _
  have hs : s = (s.reverse.dropWhile (fun x => x == c)).reverse ++
      (s.reverse.takeWhile (fun x => x == c)).reverse := by
    rw [← List.reverse_append, hsplit, List.reverse_reverse]
  have htake : (s.reverse.takeWhile (fun x => x == c)).reverse =
      List.replicate (s.reverse.takeWhile (fun x => x == c)).length c := by
    refine List.eq_replicate_iff.mpr ⟨by simp, ?_⟩
    intro b hb
    rw [List.mem_reverse] at hb
    have := List.mem_takeWhile_imp hb
    simpa using this
  conv_lhs => rw [hs, htake]
  rfl

lemma trimEndMatches_not_getLast (c : Char) (s : List Char) :
    (trimEndMatches c s).getLast? ≠ some c := by
  unfold trimEndMatches
  rw [List.getLast?_reverse]
  intro h
  have := head_dropWhile_false (fun x => x == c) s.reverse c h
  simp at this

/-- C5: the event loop maps each Stdout/Stderr/Error/Terminated event to exactly
one newline-terminated, stream-tagged log line, appends the lines in channel
delivery order with no reordering or coalescing (the produced lines are exactly
the per-event formatted lines, filtered in order), skips residual variants, and
on the input Stdout "a", Stderr "b", Stdout "c" produces exactly the three
lines [stdout] a, [stderr] b, [stdout] c in that order. -/
theorem event_loop_order_and_tags (events : List CommandEvent) :
    eventLoopLines events = events.filterMap fmtEvent ∧
    (∀ line, ∃ body,
      fmtEvent (CommandEvent.stdout line) = some ("[stdout] ".toList ++ body ++ ['\n'])) ∧
    (∀ line, ∃ body,
      fmtEvent (CommandEvent.stderr line) = some ("[stderr] ".toList ++ body ++ ['\n'])) ∧
    (∀ msg, ∃ body,
      fmtEvent (CommandEvent.error msg) = some ("[error] ".toList ++ body ++ ['\n'])) ∧
    (∀ code signal, ∃ body, fmtEvent (CommandEvent.terminated code signal) =
      some ("[terminated] ".toList ++ body ++ ['\n'])) ∧
    fmtEvent CommandEvent.other = none ∧
    eventLoopLines
        [CommandEvent.stdout ['a'], CommandEvent.stderr ['b'], CommandEvent.stdout ['c']] =
      ["[stdout] a\n".toList, "[stderr] b\n".toList, "[stdout] c\n".toList] := by
  refine ⟨?_, ?_, ?_, ?_, ?_, rfl, by decide⟩
  · induction events with
    | nil => rfl
    | cons e rest ih =>
      rw [List.filterMap_cons]
      cases h : fmtEvent e <;> simp [eventLoopLines, h, ih]
  · intro line
    exact ⟨_, rfl⟩
  · intro line
    exact ⟨_, rfl⟩
  · intro msg
    exact ⟨_, rfl⟩
  · intro code signal
    refine ⟨"code: ".toList ++ fmtOptInt code ++ ", signal: ".toList ++ fmtOptInt signal, ?_⟩
    simp only [fmtEvent, Option.some_inj]
    rw [show "[terminated] code: ".toList = "[terminated] ".toList ++ "code: ".toList
      from by decide]
    simp [List.append_assoc]

/-- C10: a logged stdout/stderr line is the stream tag plus the decoded payload
with all trailing newlines removed and then all trailing carriage returns
removed (and nothing more: the kept part ends in neither), followed by exactly
one newline; the payload's interior is kept verbatim; error and terminated
payloads are formatted without trimming. -/
theorem event_line_trimming (line msg : List Char) (code signal : Option Int) :
    (∃ body nk rk,
      fmtEvent (CommandEvent.stdout line) =
        some ("[stdout] ".toList ++ body ++ ['\n']) ∧
      line = (body ++ List.replicate rk '\r') ++ List.replicate nk '\n' ∧
      (body ++ List.replicate rk '\r').getLast? ≠ some '\n' ∧
      body.getLast? ≠ some '\r') ∧
    (∃ body nk rk,
      fmtEvent (CommandEvent.stderr line) =
        some ("[stderr] ".toList ++ body ++ ['\n']) ∧
      line = (body ++ List.replicate rk '\r') ++ List.replicate nk '\n' ∧
      (body ++ List.replicate rk '\r').getLast? ≠ some '\n' ∧
      body.getLast? ≠ some '\r') ∧
    fmtEvent (CommandEvent.error msg) = some ("[error] ".toList ++ msg ++ ['\n']) ∧
    fmtEvent (CommandEvent.terminated code signal) =
      some ("[terminated] code: ".toList ++ fmtOptInt code ++ ", signal: ".toList ++
        fmtOptInt signal ++ ['\n']) := by
  obtain ⟨nk, hnk⟩ := trimEndMatches_decomp '\n' line
  obtain ⟨rk, hrk⟩ := trimEndMatches_decomp '\r' (trimEndMatches '\n' line)
  have hlineN : (trimEndMatches '\n' line).getLast? ≠ some '\n' :=
    trimEndMatches_not_getLast '\n' line
  have hlineR : (trimEndMatches '\r' (trimEndMatches '\n' line)).getLast? ≠ some '\r' :=
    trimEndMatches_not_getLast '\r' (trimEndMatches '\n' line)
  refine ⟨⟨trimEndMatches '\r' (trimEndMatches '\n' line), nk, rk, rfl, ?_, ?_, hlineR⟩,
    ⟨trimEndMatches '\r' (trimEndMatches '\n' line), nk, rk, rfl, ?_, ?_, hlineR⟩,
    rfl, rfl⟩ <;>
  · first
    | rw [← hrk]; exact hnk
    | rw [← hrk]; exact hlineN

lemma taskGo_consumed (writeOk : Nat → Bool) (events : List CommandEvent) :
    ∀ k, (taskGo writeOk k events).consumed = events.length := by
  induction events with
  | nil => intro k; rfl
  | cons e rest ih =>
    intro k
    cases h : fmtEvent e <;> simp [taskGo, h, ih]

lemma taskGo_all_ok (events : List CommandEvent) :
    ∀ k, taskGo (fun _ => true) k events =
      { consumed := events.length, written := eventLoopLines events, diags := [] } := by
  induction events with
  | nil => intro k; rfl
  | cons e rest ih =>
    intro k
    cases h : fmtEvent e <;> simp [taskGo, eventLoopLines, h, ih]

/-- C7 counterexample: when the log file cannot be opened, the logging task
returns before consuming any event, so event consumption does not continue for
the delivered event (0 events consumed out of 1). -/
theorem log_open_failure_aborts_consumption :
    (loggingTask false (fun _ => true) "T".toList [CommandEvent.stdout ['a']]).consumed = 0 ∧
    ([CommandEvent.stdout ['a']] : List CommandEvent).length = 1 ∧
    (0 : Nat) ≠ 1 := by
  refine ⟨rfl, rfl, by decide⟩

/-- C7 amended: a failed write (or flush) never aborts the event-consumption
loop — for every write-failure pattern the task still consumes every delivered
event, reporting failures only as diagnostics; an open failure makes the task
return before consuming events, but it too only produces a diagnostic and is
never propagated (the child and caller are unaffected); with no failures the
file receives the separator followed by every formatted line. -/
theorem log_failures_isolated (writeOk : Nat → Bool) (ts : List Char)
    (events : List CommandEvent) :
    (loggingTask true writeOk ts events).consumed = events.length ∧
    loggingTask false writeOk ts events =
      { consumed := 0, written := [], diags := [diagOpenFail] } ∧
    loggingTask true (fun _ => true) ts events =
      { consumed := events.length, written := separator ts :: eventLoopLines events,
        diags := [] } := by
  refine ⟨?_, rfl, ?_⟩
  · simp [loggingTask, taskGo_consumed]
  · simp [loggingTask, taskGo_all_ok]

lemma loopOps_write_flush (events : List CommandEvent) :
    ∀ i s, (loopOps events).get? i = some (LogOp.write s) →
      (loopOps events).get? (i + 1) = some LogOp.flush := by
  induction events with
  | nil =>
    intro i s h
    rcases i with _ | n <;> simp [loopOps] at h
  | cons e rest ih =>
    intro i s h
    cases hf : fmtEvent e with
    | some line =>
      rw [loopOps] at h ⊢
      rw [hf] at h ⊢
      rcases i with _ | _ | _ | n
      · simp at h
      · simp
      · simp at h
      · simp only [List.cons_append, List.get?_cons_succ, List.nil_append] at h ⊢
        exact ih n s h
    | none =>
      rw [loopOps] at h ⊢
      rw [hf] at h ⊢
      rcases i with _ | n
      · simp at h
      · simp only [List.nil_append, List.get?_cons_succ] at h ⊢
        exact ih n s h

/-- C9 counterexample: the session-separator write is not followed by a flush —
the very next operation of the task is the first suspension on the channel, so
the separator can remain unflushed across that suspension point. -/
theorem separator_write_unflushed :
    (taskOps "T".toList []).get? 1 = some (LogOp.write (separator "T".toList)) ∧
    (taskOps "T".toList []).get? 2 = some LogOp.awaitRecv ∧
    some LogOp.awaitRecv ≠ some LogOp.flush := by
  refine ⟨rfl, rfl, by decide⟩

/-- C9 amended: every per-event line write performed by the logging task (every
write after the open and the separator write) is immediately followed by a
flush, so at each suspension on the channel no per-event line remains
unflushed; only the separator write is exempt. -/
theorem event_write_followed_by_flush (ts : List Char) (events : List CommandEvent)
    (i : Nat) (s : List Char)
    (h : (taskOps ts events).get? (i + 2) = some (LogOp.write s)) :
    (taskOps ts events).get? (i + 3) = some LogOp.flush := by
  simp only [taskOps, List.get?_cons_succ] at h ⊢
  exact loopOps_write_flush events i s h

/-- Witness for the amended C9 at a concrete run with one stdout event. -/
theorem event_write_followed_by_flush_witness :
    (taskOps "T".toList [CommandEvent.stdout ['a']]).get? 3 =
      some (LogOp.write "[stdout] a\n".toList) ∧
    (taskOps "T".toList [CommandEvent.stdout ['a']]).get? 4 = some LogOp.flush :=
  ⟨by decide, event_write_followed_by_flush "T".toList [CommandEvent.stdout ['a']] 1
    "[stdout] a\n".toList (by decide)⟩

end Discobot
